import Mathlib

/-!
Shallow embedding of the pg-log-writter repository (Go) and verification of
its specification claims.

Source files embedded:
* src/utils.go    — field extraction, user-id coercion, residual-map
                    construction, the `PostgresqlWriter` buffer / flush /
                    close logic and `writeEntries`.
* src/unnamed/part_000 — `LogField`, `LogEntry`, `PostgresConfig`,
                    `DefaultPostgresConfig`, the `DBExecutor` interface.

Conventions of the embedding:
* Go `any` values that flow through the logging API are modelled by the
  inductive `GoValue`, one constructor per Go dynamic type the code
  dispatches on (`toInt64`'s type switch plus strings and booleans).
* Go machine integers are modelled as `Int`/`Nat` with explicit wrapping
  (`wrapInt64`) where Go's conversion `int64(x)` can wrap.
* Go floating-point values are modelled as `Rat`; the Go conversion
  `int64(f)` truncates toward zero, modelled by `truncToZero`.  Go's `%v`
  rendering of floats is abstracted to the `Rat` printer (no claim depends
  on float rendering).
* A Go `map[string]interface{}` is modelled as an association list with
  overwriting insertion (`mapSet`) and key lookup (`mapGet`); Go maps are
  unordered, so only the lookup semantics matter.
* Calls into external collaborators (`time.Now`, `time.Parse`,
  `json.Marshal`, `db.Exec`) are parameters of the embedded functions, so
  theorems quantify over every possible collaborator behaviour.
-/

/-- Model of the Go dynamic (`any`) values the logging API dispatches on.
The constructors cover every case of `toInt64`'s type switch
(src/utils.go:101-122) together with strings and booleans; Go `error` and
`fmt.Stringer` contents reach the code only as their rendered text, which the
`str` constructor covers. -/
inductive GoValue where
  | str (s : String)
  | int (n : Int)
  | int8 (n : Int)
  | int16 (n : Int)
  | int32 (n : Int)
  | int64 (n : Int)
  | uint (n : Nat)
  | uint8 (n : Nat)
  | uint16 (n : Nat)
  | uint32 (n : Nat)
  | uint64 (n : Nat)
  | float32 (q : Rat)
  | float64 (q : Rat)
  | boolean (b : Bool)
  deriving Repr, DecidableEq

/-- Model of Go's two's-complement wrap into the `int64` range, used for the
conversions `int64(uint)` and `int64(uint64)`. -/
def wrapInt64 (n : Int) : Int :=
  (n + 2 ^ 63) % 2 ^ 64 - 2 ^ 63

/-- Model of Go's float-to-integer conversion, which truncates toward zero. -/
def truncToZero (q : Rat) : Int :=
  if 0 ≤ q then ⌊q⌋ else ⌈q⌉

/-- Model of `fmt.Sprintf("%v", v)` as used by `extractFields`
(src/utils.go:81): integers render in decimal, booleans as true/false,
strings as themselves; float rendering is abstracted to the `Rat` printer. -/
def govFormat : GoValue → String
  | .str s => s
  | .int n => toString n
  | .int8 n => toString n
  | .int16 n => toString n
  | .int32 n => toString n
  | .int64 n => toString n
  | .uint n => toString n
  | .uint8 n => toString n
  | .uint16 n => toString n
  | .uint32 n => toString n
  | .uint64 n => toString n
  | .float32 q => toString q
  | .float64 q => toString q
  | .boolean b => toString b

/-- Model of `FormatContent` (src/utils.go:10-21): strings pass through, the
error / Stringer / default cases all render the value to text. -/
def FormatContent (v : GoValue) : String :=
  govFormat v

/-- Model of `LogField` (src/unnamed/part_000:26-29). -/
structure LogField where
  key : String
  value : GoValue
  deriving Repr, DecidableEq

/-- Model of `toInt64` (src/utils.go:101-122): the type switch accepts
exactly `int`, `int32`, `int64`, `uint`, `uint32`, `uint64`, `float32`,
`float64`; every other dynamic type falls to the default case `(0, false)`,
modelled as `none`. -/
def toInt64 : GoValue → Option Int
  | .int n => some n
  | .int32 n => some n
  | .int64 n => some n
  | .uint n => some (wrapInt64 n)
  | .uint32 n => some (n : Int)
  | .uint64 n => some (wrapInt64 n)
  | .float32 q => some (truncToZero q)
  | .float64 q => some (truncToZero q)
  | _ => none

/-- Result of `extractFields` (src/utils.go:79-98): the four well-known
string fields and the optional user id.  Go's zero values ("" and nil
pointer) are the initial accumulator. -/
structure ExtractedFields where
  trace : String
  span : String
  duration : String
  logType : String
  userID : Option Int
  deriving Repr, DecidableEq

/-- One iteration of the loop body of `extractFields` (src/utils.go:80-96):
the switch assigns the rendered value to the matching dedicated field, and
for `user_id`/`userId` assigns only when `toInt64` succeeds. -/
def extractFieldsStep (acc : ExtractedFields) (field : LogField) : ExtractedFields :=
  let value := govFormat field.value
  if field.key = "trace" then { acc with trace := value }
  else if field.key = "span" then { acc with span := value }
  else if field.key = "duration" then { acc with duration := value }
  else if field.key = "log_type" ∨ field.key = "logType" then { acc with logType := value }
  else if field.key = "user_id" ∨ field.key = "userId" then
    match toInt64 field.value with
    | some id => { acc with userID := some id }
    | none => acc
  else acc

/-- Model of `extractFields` (src/utils.go:79-98): a left fold of the switch
over the field list, starting from Go's zero values. -/
def extractFields (fields : List LogField) : ExtractedFields :=
  fields.foldl extractFieldsStep ⟨"", "", "", "", none⟩

/-- Model of a Go `map[string]interface{}` as an association list. -/
abbrev GoMap := List (String × GoValue)

/-- Overwriting insertion `m[k] = v` into a Go map model. -/
def mapSet (m : GoMap) (k : String) (v : GoValue) : GoMap :=
  (m.filter fun p => p.1 ≠ k) ++ [(k, v)]

/-- Key lookup in a Go map model. -/
def mapGet (m : GoMap) (k : String) : Option GoValue :=
  (m.find? fun p => p.1 = k).map Prod.snd

/-- The exact key test of `convertLogFields` (src/utils.go:133): the seven
well-known keys skipped when building the residual map. -/
def isSpecialKey (k : String) : Bool :=
  k = "trace" || k = "span" || k = "duration" || k = "log_type" || k = "logType" ||
    k = "user_id" || k = "userId"

/-- One iteration of the loop body of `convertLogFields`
(src/utils.go:131-137): special keys are skipped, all others are inserted
into the result map. -/
def convertStep (result : GoMap) (field : LogField) : GoMap :=
  if isSpecialKey field.key then result
  else mapSet result field.key field.value

/-- Model of `convertLogFields` (src/utils.go:125-143): returns `none` (nil
map) on an empty field list, otherwise inserts every non-special field into
the result map and returns `none` when the result stayed empty. -/
def convertLogFields (fields : List LogField) : Option GoMap :=
  if fields.isEmpty then none
  else
    let result := fields.foldl convertStep []
    if result.isEmpty then none else some result

/-- Model of `LogEntry` (src/unnamed/part_000:47-57). -/
structure LogEntry where
  timestamp : String
  level : String
  content : String
  logType : String
  duration : String
  trace : String
  span : String
  userID : Option Int
  fields : Option GoMap
  deriving Repr, DecidableEq

/-- Model of the record construction inside `PostgresqlWriter.Log`
(src/utils.go:257-269); `time.Now().Format(time.RFC3339)` is abstracted as
the `now` parameter. -/
def logBuild (now : String) (level : String) (content : GoValue)
    (fields : List LogField) : LogEntry :=
  let e := extractFields fields
  { timestamp := now
    level := level
    content := FormatContent content
    logType := e.logType
    duration := e.duration
    trace := e.trace
    span := e.span
    userID := e.userID
    fields := convertLogFields fields }

/-- Model of `PostgresConfig` (src/unnamed/part_000:60-64); `time.Duration`
is an `int64` count of nanoseconds, modelled as `Int`. -/
structure PostgresConfig where
  tableName : String
  bufferSize : Int
  flushInterval : Int
  deriving Repr, DecidableEq

/-- Model of `DefaultPostgresConfig` (src/unnamed/part_000:67-73):
table "logs", buffer size 100, flush interval 5 seconds (in nanoseconds). -/
def DefaultPostgresConfig : PostgresConfig :=
  { tableName := "logs", bufferSize := 100, flushInterval := 5 * 1000000000 }

/-- Model of the `DBExecutor` collaborator (src/unnamed/part_000:10-17) as
its observable responses during construction: the result of `Ping` and the
result of `Exec` per SQL text.  (`Close` is modelled in the lifecycle state
below.) -/
structure DBExecutor where
  pingOk : Bool
  execOk : String → Bool

/-- The CREATE TABLE statement issued by `ensureTable` (src/utils.go:207-220),
with the Go raw-string layout flattened to single spaces. -/
def createTableQuery (name : String) : String :=
  "CREATE TABLE IF NOT EXISTS " ++ name ++
    " (id BIGSERIAL PRIMARY KEY, timestamp TIMESTAMPTZ NOT NULL DEFAULT NOW(), " ++
    "level VARCHAR(20) NOT NULL, content TEXT, log_type VARCHAR(20), " ++
    "duration VARCHAR(50), trace VARCHAR(100), span VARCHAR(100), " ++
    "user_id BIGINT, fields JSONB)"

/-- The five CREATE INDEX statements issued by `ensureTable`
(src/utils.go:227-233), in order. -/
def indexQueries (name : String) : List String :=
  [ "CREATE INDEX IF NOT EXISTS idx_" ++ name ++ "_timestamp ON " ++ name ++ "(timestamp)"
  , "CREATE INDEX IF NOT EXISTS idx_" ++ name ++ "_level ON " ++ name ++ "(level)"
  , "CREATE INDEX IF NOT EXISTS idx_" ++ name ++ "_trace ON " ++ name ++ "(trace)"
  , "CREATE INDEX IF NOT EXISTS idx_" ++ name ++ "_user_id ON " ++ name ++ "(user_id)"
  , "CREATE INDEX IF NOT EXISTS idx_" ++ name ++ "_log_type ON " ++ name ++ "(log_type)" ]

/-- All provisioning statements of `ensureTable`, table first then indexes. -/
def provisioningQueries (name : String) : List String :=
  createTableQuery name :: indexQueries name

/-- Executes statements in order, stopping at the first failure; returns
whether all succeeded together with the statements actually issued.  This is
the loop shape of `ensureTable` (src/utils.go:222-239): each `Exec` error is
returned immediately. -/
def execAll (db : DBExecutor) : List String → Bool × List String
  | [] => (true, [])
  | q :: rest =>
    if db.execOk q then
      let r := execAll db rest
      (r.1, q :: r.2)
    else (false, [q])

/-- Model of `ensureTable` (src/utils.go:206-242): issue the CREATE TABLE
statement, then the five CREATE INDEX statements, aborting on the first
failure. -/
def ensureTable (db : DBExecutor) (tableName : String) : Bool × List String :=
  execAll db (provisioningQueries tableName)

/-- Model of the configuration-derived part of a constructed
`PostgresqlWriter` (src/utils.go:155-165,184-191): table name, threshold,
interval, and the (initially empty) buffer. -/
structure PostgresqlWriter where
  tableName : String
  bufferSize : Int
  flushInterval : Int
  buffer : List LogEntry
  deriving Repr, DecidableEq

/-- Model of `NewPostgresqlWriter` (src/utils.go:170-203): nil executor is
an error; a nil config is replaced by `DefaultPostgresConfig`; `Ping` is
checked eagerly; the writer is built from the config verbatim; `ensureTable`
runs eagerly and its failure aborts construction.  On success the result
carries the list of SQL statements issued during provisioning. -/
def NewPostgresqlWriter (dbo : Option DBExecutor) (configo : Option PostgresConfig) :
    Except String (PostgresqlWriter × List String) :=
  match dbo with
  | none => .error "db executor is required"
  | some db =>
    let config := configo.getD DefaultPostgresConfig
    if db.pingOk then
      let w : PostgresqlWriter :=
        { tableName := config.tableName
          bufferSize := config.bufferSize
          flushInterval := config.flushInterval
          buffer := [] }
      let r := ensureTable db config.tableName
      if r.1 then .ok (w, r.2) else .error "failed to ensure table"
    else .error "failed to ping database"

/-- Arguments of one INSERT issued by `writeEntries` (src/utils.go:375-395):
the parsed-or-now timestamp (abstract time as `Nat`), the entry columns, and
the JSON bytes of the residual map (`none` models the nil bytes a failed
`json.Marshal` returns). -/
structure InsertRow where
  timestamp : Nat
  level : String
  content : String
  logType : String
  duration : String
  trace : String
  span : String
  userID : Option Int
  fieldsJSON : Option String
  deriving Repr, DecidableEq

/-- The row `writeEntries` builds for one entry (src/utils.go:374-394):
`json.Marshal`, `time.Parse` and `time.Now` are the `marshal`, `parse` and
`now` parameters; a parse failure substitutes `now`, and the marshal error
is discarded (a failed marshal leaves nil bytes, i.e. `none`). -/
def rowOf (marshal : Option GoMap → Option String) (parse : String → Option Nat)
    (now : Nat) (e : LogEntry) : InsertRow :=
  { timestamp := (parse e.timestamp).getD now
    level := e.level
    content := e.content
    logType := e.logType
    duration := e.duration
    trace := e.trace
    span := e.span
    userID := e.userID
    fieldsJSON := marshal e.fields }

/-- Model of `writeEntries` (src/utils.go:369-397): for each entry, in list
order, build the row and issue the INSERT; the `db.Exec` result is ignored
(`_ =`), recorded here as the discarded boolean.  The function surfaces no
error to any caller (its type has no error component). -/
def writeEntries (exec : InsertRow → Bool) (marshal : Option GoMap → Option String)
    (parse : String → Option Nat) (now : Nat) (entries : List LogEntry) :
    List (InsertRow × Bool) :=
  entries.map fun e =>
    let r := rowOf marshal parse now e
    (r, exec r)

/-- Lifecycle state of a running writer (src/utils.go:155-165): the guarded
buffer, the batches handed to spawned `go writeEntries` goroutines that the
scheduler has not yet run (`pending`), the records the backend has accepted
(`persisted`), and whether `db.Close` has happened. -/
structure WriterState where
  bufferSize : Int
  buffer : List LogEntry
  pending : List (List LogEntry)
  persisted : List LogEntry
  dbClosed : Bool
  deriving Repr, DecidableEq

/-- The state of a freshly constructed writer with threshold `t`
(src/utils.go:184-191): empty buffer, no spawned work, open backend. -/
def initState (t : Int) : WriterState :=
  { bufferSize := t, buffer := [], pending := [], persisted := [], dbClosed := false }

/-- Model of `flushLocked` (src/utils.go:355-366): a no-op on an empty
buffer; otherwise the buffer contents are copied out, the buffer is emptied,
and the batch is handed to a spawned goroutine (`go w.writeEntries`) — it
joins `pending` and is NOT executed here. -/
def flushLocked (s : WriterState) : WriterState :=
  if s.buffer.isEmpty then s
  else { s with buffer := [], pending := s.pending ++ [s.buffer] }

/-- Model of `AddEntry` (src/utils.go:245-254): under the buffer lock the
entry is appended, and if the length reached the threshold `flushLocked`
runs synchronously before `AddEntry` returns. -/
def addEntry (s : WriterState) (e : LogEntry) : WriterState :=
  if s.bufferSize ≤ ((s.buffer ++ [e]).length : Int)
  then flushLocked { s with buffer := s.buffer ++ [e] }
  else { s with buffer := s.buffer ++ [e] }

/-- Appending a list of entries in order via `AddEntry`. -/
def addEntries (s : WriterState) (es : List LogEntry) : WriterState :=
  es.foldl addEntry s

/-- Scheduler step: run one previously spawned `writeEntries` goroutine
(batch `i` of `pending`).  While the backend is open its `Exec` accepts the
batch records in order; after `db.Close` every `Exec` fails and the error is
discarded (src/utils.go:385), so nothing is persisted. -/
def runBatch (s : WriterState) (i : Nat) : WriterState :=
  match s.pending[i]? with
  | none => s
  | some batch =>
    { s with pending := s.pending.eraseIdx i
             persisted := s.persisted ++ if s.dbClosed then [] else batch }

/-- Model of the `Close` sequence (src/utils.go:400-404 with
src/utils.go:340-342): `close(done)` makes `flushLoop` perform one final
`Flush` (i.e. `flushLocked`) and return; `wg.Wait()` joins only `flushLoop`
— the goroutines spawned by `flushLocked` are not in the wait group — and
then `db.Close()` releases the backend. -/
def closeWriter (s : WriterState) : WriterState :=
  let s := flushLocked s
  { s with dbClosed := true }

/-- Events a test harness / scheduler can interleave: producer appends, a
timer flush, the scheduler running one spawned persist goroutine, and the
close request. -/
inductive WriterAction where
  | append (e : LogEntry)
  | timerFlush
  | runSpawned (i : Nat)
  | closeReq
  deriving Repr

/-- One step of the interleaving semantics. -/
def stepWriter (s : WriterState) : WriterAction → WriterState
  | .append e => addEntry s e
  | .timerFlush => flushLocked s
  | .runSpawned i => runBatch s i
  | .closeReq => closeWriter s

/-- Running a whole schedule of events from a given state. -/
def runWriter (s : WriterState) (acts : List WriterAction) : WriterState :=
  acts.foldl stepWriter s

/-! ## Helper lemmas about the record builder -/

/-- A sample concrete log entry used by witnesses. -/
def sampleEntry (c : String) : LogEntry :=
  { timestamp := "2025-01-01T00:00:00Z", level := "info", content := c,
    logType := "", duration := "", trace := "", span := "", userID := none,
    fields := none }

theorem extractFields_append (xs ys : List LogField) :
    extractFields (xs ++ ys) = ys.foldl extractFieldsStep (extractFields xs) := by
  simp [extractFields, List.foldl_append]

theorem extractFieldsStep_trace (acc : ExtractedFields) (f : LogField)
    (h : f.key ≠ "trace") : (extractFieldsStep acc f).trace = acc.trace := by
  unfold extractFieldsStep
  split
  · exact absurd (by assumption) h
  split
  · rfl
  split
  · rfl
  split
  · rfl
  split
  · split <;> rfl
  · rfl

theorem foldl_extract_trace (ys : List LogField) : ∀ acc : ExtractedFields,
    (∀ f ∈ ys, f.key ≠ "trace") →
    (ys.foldl extractFieldsStep acc).trace = acc.trace := by
  induction ys with
  | nil => intro acc _; rfl
  | cons f fs ih =>
    intro acc h
    simp only [List.foldl_cons]
    rw [ih _ fun g hg => h g (List.mem_cons_of_mem f hg)]
    exact extractFieldsStep_trace acc f (h f (List.mem_cons_self f fs))

theorem extractFieldsStep_span (acc : ExtractedFields) (f : LogField)
    (h : f.key ≠ "span") : (extractFieldsStep acc f).span = acc.span := by
  unfold extractFieldsStep
  split_ifs <;> first | rfl | (split <;> rfl)

theorem extractFieldsStep_duration (acc : ExtractedFields) (f : LogField)
    (h : f.key ≠ "duration") : (extractFieldsStep acc f).duration = acc.duration := by
  unfold extractFieldsStep
  split_ifs <;> first | rfl | (split <;> rfl)

theorem extractFieldsStep_logType (acc : ExtractedFields) (f : LogField)
    (h1 : f.key ≠ "log_type") (h2 : f.key ≠ "logType") :
    (extractFieldsStep acc f).logType = acc.logType := by
  unfold extractFieldsStep
  split_ifs with ha hb hc hd
  · rfl
  · rfl
  · rfl
  · rcases hd with hk | hk
    · exact absurd hk h1
    · exact absurd hk h2
  · split <;> rfl
  · rfl

theorem extractFieldsStep_userID (acc : ExtractedFields) (f : LogField)
    (h : (f.key = "user_id" ∨ f.key = "userId") → toInt64 f.value = none) :
    (extractFieldsStep acc f).userID = acc.userID := by
  unfold extractFieldsStep
  split_ifs with ha hb hc hd he
  · rfl
  · rfl
  · rfl
  · rfl
  · rw [h he]
  · rfl

theorem foldl_extract_span (ys : List LogField) : ∀ acc : ExtractedFields,
    (∀ f ∈ ys, f.key ≠ "span") →
    (ys.foldl extractFieldsStep acc).span = acc.span := by
  induction ys with
  | nil => intro acc _; rfl
  | cons f fs ih =>
    intro acc h
    simp only [List.foldl_cons]
    rw [ih _ fun g hg => h g (List.mem_cons_of_mem f hg)]
    exact extractFieldsStep_span acc f (h f (List.mem_cons_self f fs))

theorem foldl_extract_duration (ys : List LogField) : ∀ acc : ExtractedFields,
    (∀ f ∈ ys, f.key ≠ "duration") →
    (ys.foldl extractFieldsStep acc).duration = acc.duration := by
  induction ys with
  | nil => intro acc _; rfl
  | cons f fs ih =>
    intro acc h
    simp only [List.foldl_cons]
    rw [ih _ fun g hg => h g (List.mem_cons_of_mem f hg)]
    exact extractFieldsStep_duration acc f (h f (List.mem_cons_self f fs))

theorem foldl_extract_logType (ys : List LogField) : ∀ acc : ExtractedFields,
    (∀ f ∈ ys, f.key ≠ "log_type" ∧ f.key ≠ "logType") →
    (ys.foldl extractFieldsStep acc).logType = acc.logType := by
  induction ys with
  | nil => intro acc _; rfl
  | cons f fs ih =>
    intro acc h
    simp only [List.foldl_cons]
    rw [ih _ fun g hg => h g (List.mem_cons_of_mem f hg)]
    exact extractFieldsStep_logType acc f (h f (List.mem_cons_self f fs)).1
      (h f (List.mem_cons_self f fs)).2

theorem foldl_extract_userID (ys : List LogField) : ∀ acc : ExtractedFields,
    (∀ f ∈ ys, (f.key = "user_id" ∨ f.key = "userId") → toInt64 f.value = none) →
    (ys.foldl extractFieldsStep acc).userID = acc.userID := by
  induction ys with
  | nil => intro acc _; rfl
  | cons f fs ih =>
    intro acc h
    simp only [List.foldl_cons]
    rw [ih _ fun g hg => h g (List.mem_cons_of_mem f hg)]
    exact extractFieldsStep_userID acc f (h f (List.mem_cons_self f fs))

theorem extractFieldsStep_userID_hit (acc : ExtractedFields) (v : GoValue) (id : Int)
    (hid : toInt64 v = some id) :
    (extractFieldsStep acc ⟨"user_id", v⟩).userID = some id := by
  simp [extractFieldsStep, hid]

theorem extractFieldsStep_trace_hit (acc : ExtractedFields) (v : GoValue) :
    (extractFieldsStep acc ⟨"trace", v⟩).trace = govFormat v := rfl

theorem extractFieldsStep_span_hit (acc : ExtractedFields) (v : GoValue) :
    (extractFieldsStep acc ⟨"span", v⟩).span = govFormat v := rfl

theorem extractFieldsStep_duration_hit (acc : ExtractedFields) (v : GoValue) :
    (extractFieldsStep acc ⟨"duration", v⟩).duration = govFormat v := rfl

theorem extractFieldsStep_logType_hit (acc : ExtractedFields) (v : GoValue) :
    (extractFieldsStep acc ⟨"log_type", v⟩).logType = govFormat v := rfl

/-- C6 counterexample: with the well-known key `trace` duplicated, the value
extracted into the dedicated field is that of the SECOND (last) occurrence,
not the first: `extractFields` assigns on every match (src/utils.go:83-96),
so a later occurrence overwrites an earlier one. -/
theorem duplicated_trace_first_value_not_extracted :
    (extractFields [⟨"trace", GoValue.str "a"⟩, ⟨"trace", GoValue.str "b"⟩]).trace = "b" ∧
    (extractFields [⟨"trace", GoValue.str "a"⟩, ⟨"trace", GoValue.str "b"⟩]).trace ≠ "a" := by
  decide

/-- C6 amended claim: classification of a duplicated well-known key into the
dedicated field is LAST-match-wins — whatever occurs before the last
occurrence of the key, the extracted value is the rendered value of the last
occurrence.  For `user_id` the winner is the last occurrence whose value
coerces: any later `user_id`/`userId` occurrences whose values fail to
coerce do not overwrite it (fifth conjunct, whose hypothesis only requires
every later occurrence of the key to be non-coercing). -/
theorem extract_last_match_wins (pre post : List LogField) (v : GoValue) :
    ((∀ f ∈ post, f.key ≠ "trace") →
      (extractFields (pre ++ ⟨"trace", v⟩ :: post)).trace = govFormat v) ∧
    ((∀ f ∈ post, f.key ≠ "span") →
      (extractFields (pre ++ ⟨"span", v⟩ :: post)).span = govFormat v) ∧
    ((∀ f ∈ post, f.key ≠ "duration") →
      (extractFields (pre ++ ⟨"duration", v⟩ :: post)).duration = govFormat v) ∧
    ((∀ f ∈ post, f.key ≠ "log_type" ∧ f.key ≠ "logType") →
      (extractFields (pre ++ ⟨"log_type", v⟩ :: post)).logType = govFormat v) ∧
    ((∀ f ∈ post, (f.key = "user_id" ∨ f.key = "userId") → toInt64 f.value = none) →
      ∀ id, toInt64 v = some id →
      (extractFields (pre ++ ⟨"user_id", v⟩ :: post)).userID = some id) := by
  have hsplit : ∀ x : LogField, pre ++ x :: post = (pre ++ [x]) ++ post := by
    intro x; simp
  refine ⟨?_, ?_, ?_, ?_, ?_⟩
  · intro h
    rw [hsplit, extractFields_append, foldl_extract_trace post _ h, extractFields_append]
    exact extractFieldsStep_trace_hit _ v
  · intro h
    rw [hsplit, extractFields_append, foldl_extract_span post _ h, extractFields_append]
    exact extractFieldsStep_span_hit _ v
  · intro h
    rw [hsplit, extractFields_append, foldl_extract_duration post _ h, extractFields_append]
    exact extractFieldsStep_duration_hit _ v
  · intro h
    rw [hsplit, extractFields_append, foldl_extract_logType post _ h, extractFields_append]
    exact extractFieldsStep_logType_hit _ v
  · intro h id hid
    rw [hsplit, extractFields_append, foldl_extract_userID post _ h, extractFields_append]
    exact extractFieldsStep_userID_hit _ v id hid

/-- C6 witness: the amended last-match-wins rule evaluated on a concrete
duplicated key, and the user-id rule evaluated where the final `user_id`
occurrence fails to coerce — the last coercible occurrence (5) wins. -/
theorem extract_last_match_wins_witness :
    (extractFields [⟨"trace", GoValue.str "a"⟩, ⟨"trace", GoValue.str "b"⟩]).trace = "b" ∧
    (extractFields [⟨"user_id", GoValue.int 5⟩, ⟨"user_id", GoValue.str "x"⟩]).userID =
      some 5 := by
  constructor
  · exact (extract_last_match_wins [⟨"trace", GoValue.str "a"⟩] [] (GoValue.str "b")).1
      (fun f hf => absurd hf (List.not_mem_nil f))
  · refine (extract_last_match_wins [] [⟨"user_id", GoValue.str "x"⟩]
      (GoValue.int 5)).2.2.2.2 ?_ 5 rfl
    intro f hf _
    rw [List.mem_singleton] at hf
    subst hf
    rfl

theorem mem_mapSet {m : GoMap} {k : String} {v : GoValue} {p : String × GoValue}
    (hp : p ∈ mapSet m k v) : p ∈ m ∨ p = (k, v) := by
  simp only [mapSet, List.mem_append, List.mem_filter, List.mem_singleton] at hp
  rcases hp with ⟨hm, _⟩ | h
  · exact Or.inl hm
  · exact Or.inr h

theorem convert_fold_keys (fields : List LogField) :
    ∀ acc : GoMap, (∀ p ∈ acc, isSpecialKey p.1 = false) →
    ∀ p ∈ fields.foldl convertStep acc, isSpecialKey p.1 = false := by
  induction fields with
  | nil => intro acc hacc; exact hacc
  | cons f fs ih =>
    intro acc hacc
    simp only [List.foldl_cons]
    refine ih _ ?_
    intro p hp
    unfold convertStep at hp
    split at hp
    · exact hacc p hp
    · rcases mem_mapSet hp with h | h
      · exact hacc p h
      · subst h
        rename_i hf
        show isSpecialKey f.key = false
        simpa using hf

theorem mapGet_eq_none_of_keys {m : GoMap} {k : String}
    (h : ∀ p ∈ m, p.1 ≠ k) : mapGet m k = none := by
  unfold mapGet
  rw [List.find?_eq_none.mpr]
  · rfl
  · intro p hp
    simpa using h p hp

theorem mapSet_isEmpty (m : GoMap) (k : String) (v : GoValue) :
    (mapSet m k v).isEmpty = false := by
  simp [mapSet, List.isEmpty_iff]

theorem convert_fold_isEmpty (fields : List LogField) :
    ∀ acc : GoMap, (fields.foldl convertStep acc).isEmpty =
      (acc.isEmpty && fields.all fun f => isSpecialKey f.key) := by
  induction fields with
  | nil => intro acc; simp
  | cons f fs ih =>
    intro acc
    simp only [List.foldl_cons, List.all_cons]
    by_cases hf : isSpecialKey f.key = true
    · rw [show convertStep acc f = acc from by simp [convertStep, hf], ih, hf]
      simp
    · rw [show convertStep acc f = mapSet acc f.key f.value from by
        simp [convertStep, hf], ih, mapSet_isEmpty]
      simp only [Bool.false_and]
      simp only [Bool.not_eq_true] at hf
      rw [hf]
      simp

/-- C7: no well-known key (trace, span, duration, log_type/logType,
user_id/userId) is ever found in the residual map of a built record, and the
residual map of the built record is nil exactly when every field carries a
well-known key (in particular when the field list is empty). -/
theorem wellknown_keys_never_in_residual (now level : String) (content : GoValue)
    (fields : List LogField) :
    (∀ k, isSpecialKey k = true → ∀ m,
      (logBuild now level content fields).fields = some m → mapGet m k = none) ∧
    ((logBuild now level content fields).fields = none ↔
      ∀ f ∈ fields, isSpecialKey f.key = true) := by
  have hconv : (logBuild now level content fields).fields = convertLogFields fields := rfl
  constructor
  · intro k hk m hm
    rw [hconv] at hm
    unfold convertLogFields at hm
    split at hm
    · exact absurd hm (by simp)
    · have hm1 : (if (fields.foldl convertStep []).isEmpty = true then (none : Option GoMap)
          else some (fields.foldl convertStep [])) = some m := hm
      split at hm1
      · exact absurd hm1 (by simp)
      · have hm2 : fields.foldl convertStep [] = m := by
          exact Option.some.inj hm1
        apply mapGet_eq_none_of_keys
        intro p hp hpk
        have hns : isSpecialKey p.1 = false := by
          refine convert_fold_keys fields [] ?_ p (hm2 ▸ hp)
          intro q hq
          exact absurd hq (List.not_mem_nil q)
        rw [hpk, hk] at hns
        exact absurd hns (by simp)
  · rw [hconv]
    unfold convertLogFields
    by_cases hemp : fields.isEmpty = true
    · rw [if_pos hemp]
      have : fields = [] := List.isEmpty_iff.mp hemp
      subst this
      simp
    · rw [if_neg hemp]
      show (if (fields.foldl convertStep []).isEmpty = true then (none : Option GoMap)
        else some (fields.foldl convertStep [])) = none ↔ _
      rw [show (fields.foldl convertStep []).isEmpty =
          (([] : GoMap).isEmpty && fields.all fun f => isSpecialKey f.key) from
        convert_fold_isEmpty fields []]
      simp only [List.isEmpty_nil, Bool.true_and]
      by_cases hall : (fields.all fun f => isSpecialKey f.key) = true
      · rw [if_pos hall]
        simp only [List.all_eq_true] at hall
        exact iff_of_true rfl hall
      · rw [if_neg hall]
        refine iff_of_false (by simp) ?_
        intro hcl
        exact hall (List.all_eq_true.mpr hcl)

/-- C7 witness: a record whose only attribute is a well-known key has a nil
residual map, and a mixed list keeps only the non-well-known key. -/
theorem wellknown_keys_never_in_residual_witness :
    (logBuild "t" "info" (GoValue.str "c") [⟨"trace", GoValue.str "x"⟩]).fields = none :=
  (wellknown_keys_never_in_residual "t" "info" (GoValue.str "c")
    [⟨"trace", GoValue.str "x"⟩]).2.mpr (by decide)

/-- C5 counterexample: an `int8` value is a signed-integer representation,
yet the `toInt64` type switch (src/utils.go:101-122) has no `int8` case, so
a `user_id` attribute carried as `int8` is dropped and the field stays
unset — refuting "accepts any signed or unsigned integer representation". -/
theorem toInt64_rejects_small_int_widths :
    toInt64 (GoValue.int8 5) = none ∧
    toInt64 (GoValue.int16 5) = none ∧
    toInt64 (GoValue.uint8 5) = none ∧
    toInt64 (GoValue.uint16 5) = none ∧
    (extractFields [⟨"user_id", GoValue.int8 5⟩]).userID = none := by
  decide

/-- C5 amended claim: user-id coercion accepts exactly the representations
`int`, `int32`, `int64`, `uint`, `uint32`, `uint64`, `float32`, `float64`
(not the 8- and 16-bit integer widths) and converts them to a 64-bit signed
integer; any other representation — a string, or an 8/16-bit integer —
leaves the user_id field unset while the rest of the record is built exactly
as it would be without the attribute. -/
theorem user_id_coercion_supported_and_graceful (n : Int) (u : Nat) (q : Rat)
    (s : String) (now level : String) (content : GoValue) :
    toInt64 (GoValue.int n) = some n ∧
    toInt64 (GoValue.int32 n) = some n ∧
    toInt64 (GoValue.int64 n) = some n ∧
    toInt64 (GoValue.uint u) = some (wrapInt64 u) ∧
    toInt64 (GoValue.uint32 u) = some (u : Int) ∧
    toInt64 (GoValue.uint64 u) = some (wrapInt64 u) ∧
    toInt64 (GoValue.float32 q) = some (truncToZero q) ∧
    toInt64 (GoValue.float64 q) = some (truncToZero q) ∧
    toInt64 (GoValue.str s) = none ∧
    toInt64 (GoValue.int8 n) = none ∧
    toInt64 (GoValue.int16 n) = none ∧
    toInt64 (GoValue.uint8 u) = none ∧
    toInt64 (GoValue.uint16 u) = none ∧
    logBuild now level content [⟨"user_id", GoValue.str s⟩] =
      logBuild now level content [] := by
  refine ⟨rfl, rfl, rfl, rfl, rfl, rfl, rfl, rfl, rfl, rfl, rfl, rfl, rfl, ?_⟩
  rfl

/-! ## Buffer threshold behaviour -/

theorem addEntry_no_flush (s : WriterState) (e : LogEntry)
    (h : (s.buffer.length : Int) + 1 < s.bufferSize) :
    addEntry s e = { s with buffer := s.buffer ++ [e] } := by
  unfold addEntry
  rw [if_neg]
  push_cast [List.length_append, List.length_cons, List.length_singleton, List.length_nil]
  omega

theorem addEntry_flush (s : WriterState) (e : LogEntry)
    (h : s.bufferSize ≤ (s.buffer.length : Int) + 1) :
    addEntry s e = { s with buffer := [], pending := s.pending ++ [s.buffer ++ [e]] } := by
  unfold addEntry
  rw [if_pos (by push_cast [List.length_append, List.length_cons, List.length_singleton, List.length_nil]; omega)]
  unfold flushLocked
  rw [if_neg (by simp)]

theorem addEntries_below (es : List LogEntry) : ∀ s : WriterState,
    (s.buffer.length : Int) + es.length < s.bufferSize →
    addEntries s es = { s with buffer := s.buffer ++ es } := by
  induction es with
  | nil =>
    intro s _
    show s = _
    simp
  | cons e es ih =>
    intro s h
    show addEntries (addEntry s e) es = _
    rw [addEntry_no_flush s e (by push_cast [List.length_append, List.length_cons, List.length_singleton, List.length_nil] at h ⊢; omega)]
    rw [ih _ (by push_cast [List.length_append, List.length_cons, List.length_singleton, List.length_nil] at h ⊢; omega)]
    simp

theorem addEntries_reach (es : List LogEntry) : ∀ s : WriterState, es ≠ [] →
    (s.buffer.length : Int) + es.length = s.bufferSize →
    addEntries s es = { s with buffer := [], pending := s.pending ++ [s.buffer ++ es] } := by
  induction es with
  | nil => intro s hne _; exact absurd rfl hne
  | cons e es ih =>
    intro s _ h
    by_cases hes : es = []
    · subst hes
      show addEntries (addEntry s e) [] = _
      rw [addEntry_flush s e (by push_cast [List.length_append, List.length_cons, List.length_singleton, List.length_nil] at h ⊢; omega)]
      rfl
    · show addEntries (addEntry s e) es = _
      have h1 : (s.buffer.length : Int) + 1 < s.bufferSize := by
        have hpos : 0 < es.length := List.length_pos.mpr hes
        push_cast [List.length_cons] at h ⊢
        omega
      rw [addEntry_no_flush s e h1]
      rw [ih _ hes (by push_cast [List.length_append, List.length_cons, List.length_singleton, List.length_nil] at h ⊢; omega)]
      simp

/-- C2: starting from a fresh writer with threshold `T > 0`, appending
exactly `T` records performs exactly one drain-and-dispatch — the batch of
all `T` records is handed off (to `pending`) inside the `T`-th `AddEntry`
call itself, under the append lock (the model's `addEntry` returns only
after `flushLocked` ran) — and the buffer is empty immediately afterwards;
appending only `T - 1` records dispatches nothing and leaves all of them
buffered. -/
theorem threshold_append_single_drain (T : Int) (es esShort : List LogEntry)
    (hT : 0 < T) :
    ((es.length : Int) = T →
      addEntries (initState T) es =
        { bufferSize := T, buffer := [], pending := [es], persisted := [],
          dbClosed := false }) ∧
    ((esShort.length : Int) = T - 1 →
      addEntries (initState T) esShort =
        { bufferSize := T, buffer := esShort, pending := [], persisted := [],
          dbClosed := false }) := by
  constructor
  · intro hlen
    have hne : es ≠ [] := by
      intro hnil
      subst hnil
      simp at hlen
      omega
    have h := addEntries_reach es (initState T) hne (by simp [initState, hlen])
    simpa [initState] using h
  · intro hlen
    have h := addEntries_below esShort (initState T) (by simp [initState]; omega)
    simpa [initState] using h

/-- C2 witness: the threshold rule evaluated at threshold 2 with concrete
records. -/
theorem threshold_append_single_drain_witness :
    addEntries (initState 2) [sampleEntry "a", sampleEntry "b"] =
      { bufferSize := 2, buffer := [], pending := [[sampleEntry "a", sampleEntry "b"]],
        persisted := [], dbClosed := false } ∧
    addEntries (initState 2) [sampleEntry "a"] =
      { bufferSize := 2, buffer := [sampleEntry "a"], pending := [], persisted := [],
        dbClosed := false } := by
  have h := threshold_append_single_drain 2 [sampleEntry "a", sampleEntry "b"]
    [sampleEntry "a"] (by decide)
  exact ⟨h.1 (by decide), h.2 (by decide)⟩

/-- C1: the `Close` sequence does NOT await the spawned persist goroutines.
`flushLocked` hands every drained batch to `go w.writeEntries(entries)`
(src/utils.go:365) — a goroutine that is not added to the wait group — while
`Close` (src/utils.go:400-404) waits only for `flushLoop` via `wg.Wait()`
and then releases the backend with `db.Close()`.  First conjunct: closing
never persists anything itself, on any state.  Remaining conjuncts: with
threshold 2, appending one record and closing reaches a state where the
backend is released (`dbClosed`), nothing was persisted, the batch is still
waiting in a spawned goroutine, and running that goroutine after the release
persists nothing either — the record is lost, contradicting the claim that
the final drain's persist step is awaited before the backend is released. -/
theorem close_releases_backend_before_spawned_persist :
    (∀ s : WriterState, (closeWriter s).persisted = s.persisted ∧
      (closeWriter s).dbClosed = true) ∧
    (runWriter (initState 2) [.append (sampleEntry "a"), .closeReq]).dbClosed = true ∧
    (runWriter (initState 2) [.append (sampleEntry "a"), .closeReq]).persisted = [] ∧
    (runWriter (initState 2) [.append (sampleEntry "a"), .closeReq]).pending =
      [[sampleEntry "a"]] ∧
    (runWriter (initState 2)
      [.append (sampleEntry "a"), .closeReq, .runSpawned 0]).persisted = [] := by
  refine ⟨?_, rfl, rfl, rfl, rfl⟩
  intro s
  constructor
  · show (flushLocked s).persisted = s.persisted
    unfold flushLocked
    split <;> rfl
  · rfl

/-- C9: within one drained batch, records reach the backend in append
order: appending `[A, B, C]` to a fresh writer with threshold 3 dispatches
exactly the batch `[A, B, C]`, and `writeEntries` issues its INSERTs in the
order of the batch — in general, the attempted rows are the entry list
mapped in order, never reordered. -/
theorem batch_persisted_in_append_order (A B C : LogEntry) (exec : InsertRow → Bool)
    (marshal : Option GoMap → Option String) (parse : String → Option Nat) (now : Nat)
    (entries : List LogEntry) :
    (addEntries (initState 3) [A, B, C]).pending = [[A, B, C]] ∧
    (writeEntries exec marshal parse now [A, B, C]).map Prod.fst =
      [rowOf marshal parse now A, rowOf marshal parse now B, rowOf marshal parse now C] ∧
    (writeEntries exec marshal parse now entries).map Prod.fst =
      entries.map (rowOf marshal parse now) := by
  refine ⟨?_, rfl, ?_⟩
  · rw [addEntries_reach [A, B, C] (initState 3) (by simp) (by simp [initState])]
    rfl
  · unfold writeEntries
    rw [List.map_map]
    rfl

/-- C3: `writeEntries` attempts every record of the batch, independently and
in order: the list of attempted INSERT rows does not depend on the backend
`Exec` outcomes at all (each failure is discarded by `_ =` and the loop
continues), the function surfaces no error, every record of the batch is
attempted, and a record whose residual-map encoding fails is still attempted
with a nil (`none`) JSON value instead of aborting. -/
theorem persist_attempts_each_record_independently (exec exec2 : InsertRow → Bool)
    (marshal : Option GoMap → Option String) (parse : String → Option Nat) (now : Nat)
    (entries : List LogEntry) :
    ((writeEntries exec marshal parse now entries).map Prod.fst =
      entries.map (rowOf marshal parse now)) ∧
    ((writeEntries exec marshal parse now entries).map Prod.fst =
      (writeEntries exec2 marshal parse now entries).map Prod.fst) ∧
    (∀ e ∈ entries, (rowOf marshal parse now e, exec (rowOf marshal parse now e)) ∈
      writeEntries exec marshal parse now entries) ∧
    (∀ e : LogEntry, marshal e.fields = none →
      (rowOf marshal parse now e).fieldsJSON = none) := by
  refine ⟨?_, ?_, ?_, ?_⟩
  · unfold writeEntries
    rw [List.map_map]
    rfl
  · unfold writeEntries
    rw [List.map_map, List.map_map]
    rfl
  · intro e he
    exact List.mem_map_of_mem _ he
  · intro e hm
    show marshal e.fields = none
    exact hm

/-- C3 witness: the independence properties evaluated at a concrete batch,
a failing backend and a failing encoder. -/
theorem persist_attempts_witness :
    ((rowOf (fun _ => none) (fun _ => none) 0 (sampleEntry "w"), false) ∈
      writeEntries (fun _ => false) (fun _ => none) (fun _ => none) 0 [sampleEntry "w"]) ∧
    (rowOf (fun _ => none) (fun _ => none) 0 (sampleEntry "w")).fieldsJSON = none := by
  have h := persist_attempts_each_record_independently (fun _ => false) (fun _ => true)
    (fun _ => none) (fun _ => none) 0 [sampleEntry "w"]
  exact ⟨h.2.2.1 (sampleEntry "w") (by simp), h.2.2.2 (sampleEntry "w") rfl⟩

/-- C10: a record whose stored timestamp string fails to parse as RFC3339 is
not dropped: `writeEntries` substitutes the current wall-clock time
(src/utils.go:380-383) and still attempts the INSERT for that record. -/
theorem unparseable_timestamp_replaced_with_now (marshal : Option GoMap → Option String)
    (parse : String → Option Nat) (now : Nat) (e : LogEntry)
    (h : parse e.timestamp = none) :
    (rowOf marshal parse now e).timestamp = now ∧
    ∀ (exec : InsertRow → Bool) (entries : List LogEntry), e ∈ entries →
      (rowOf marshal parse now e, exec (rowOf marshal parse now e)) ∈
        writeEntries exec marshal parse now entries := by
  constructor
  · show (parse e.timestamp).getD now = now
    rw [h]
    rfl
  · intro exec entries he
    exact List.mem_map_of_mem _ he

/-- C10 witness: the substitution evaluated with a parser that rejects the
sample timestamp. -/
theorem unparseable_timestamp_witness :
    (rowOf (fun _ => none) (fun _ => none) 7 (sampleEntry "x")).timestamp = 7 ∧
    ((rowOf (fun _ => none) (fun _ => none) 7 (sampleEntry "x"), true) ∈
      writeEntries (fun _ => true) (fun _ => none) (fun _ => none) 7 [sampleEntry "x"]) := by
  have h := unparseable_timestamp_replaced_with_now (fun _ => none) (fun _ => none) 7
    (sampleEntry "x") rfl
  exact ⟨h.1, h.2 (fun _ => true) [sampleEntry "x"] (by simp)⟩

/-! ## Construction -/

theorem execAll_ok_trace (db : DBExecutor) : ∀ qs : List String,
    (execAll db qs).1 = true → (execAll db qs).2 = qs := by
  intro qs
  induction qs with
  | nil => intro _; rfl
  | cons q rest ih =>
    intro h
    by_cases hq : db.execOk q = true
    · show (execAll db (q :: rest)).2 = q :: rest
      unfold execAll at h ⊢
      rw [if_pos hq] at h ⊢
      show q :: (execAll db rest).2 = q :: rest
      rw [ih h]
    · exfalso
      unfold execAll at h
      rw [if_neg hq] at h
      exact absurd h (by simp)

theorem provisioning_idempotent (name : String) :
    ∀ q ∈ provisioningQueries name,
      ("CREATE TABLE IF NOT EXISTS ".data <+: q.data) ∨
      ("CREATE INDEX IF NOT EXISTS idx_".data <+: q.data) := by
  intro q hq
  simp only [provisioningQueries, indexQueries, List.mem_cons, List.not_mem_nil,
    or_false] at hq
  rcases hq with h | h | h | h | h | h
  · subst h
    left
    simp only [createTableQuery, String.data_append, List.append_assoc]
    exact ⟨_, rfl⟩
  · subst h
    right
    simp only [String.data_append, List.append_assoc]
    exact ⟨_, rfl⟩
  · subst h
    right
    simp only [String.data_append, List.append_assoc]
    exact ⟨_, rfl⟩
  · subst h
    right
    simp only [String.data_append, List.append_assoc]
    exact ⟨_, rfl⟩
  · subst h
    right
    simp only [String.data_append, List.append_assoc]
    exact ⟨_, rfl⟩
  · subst h
    right
    simp only [String.data_append, List.append_assoc]
    exact ⟨_, rfl⟩

theorem newWriter_ok_elim (db : DBExecutor) (cfgo : Option PostgresConfig)
    (w : PostgresqlWriter) (tr : List String)
    (hok : NewPostgresqlWriter (some db) cfgo = .ok (w, tr)) :
    w = ⟨(cfgo.getD DefaultPostgresConfig).tableName,
         (cfgo.getD DefaultPostgresConfig).bufferSize,
         (cfgo.getD DefaultPostgresConfig).flushInterval, []⟩ ∧
    tr = (ensureTable db (cfgo.getD DefaultPostgresConfig).tableName).2 ∧
    db.pingOk = true ∧
    (ensureTable db (cfgo.getD DefaultPostgresConfig).tableName).1 = true := by
  by_cases hp : db.pingOk = true
  · by_cases he : (ensureTable db (cfgo.getD DefaultPostgresConfig).tableName).1 = true
    · have hred : NewPostgresqlWriter (some db) cfgo =
          .ok (⟨(cfgo.getD DefaultPostgresConfig).tableName,
                (cfgo.getD DefaultPostgresConfig).bufferSize,
                (cfgo.getD DefaultPostgresConfig).flushInterval, []⟩,
               (ensureTable db (cfgo.getD DefaultPostgresConfig).tableName).2) := by
        simp [NewPostgresqlWriter, hp, he]
      rw [hred] at hok
      have hpair := Except.ok.inj hok
      exact ⟨(congrArg Prod.fst hpair).symm, (congrArg Prod.snd hpair).symm, hp, he⟩
    · have hf : (ensureTable db (cfgo.getD DefaultPostgresConfig).tableName).1 = false := by
        revert he
        cases (ensureTable db (cfgo.getD DefaultPostgresConfig).tableName).1 <;> simp
      have herr : NewPostgresqlWriter (some db) cfgo = .error "failed to ensure table" := by
        simp [NewPostgresqlWriter, hp, hf]
      rw [herr] at hok
      exact Except.noConfusion hok
  · have hf : db.pingOk = false := by
      revert hp
      cases db.pingOk <;> simp
    have herr : NewPostgresqlWriter (some db) cfgo = .error "failed to ping database" := by
      simp [NewPostgresqlWriter, hf]
    rw [herr] at hok
    exact Except.noConfusion hok

/-- C4 counterexample: a NON-nil configuration with zero threshold and zero
interval is accepted verbatim — `NewPostgresqlWriter` (src/utils.go:184-188)
copies `config.BufferSize` and `config.FlushInterval` without validation, so
a writer with threshold 0 (and interval 0) is constructed, refuting the
claimed invariant "threshold > 0 and interval > 0 for every constructed
writer, defaults supplied whenever the value is unset". -/
theorem nonnil_config_zero_threshold_accepted :
    NewPostgresqlWriter (some ⟨true, fun _ => true⟩) (some ⟨"t", 0, 0⟩) =
      .ok (⟨"t", 0, 0, []⟩, provisioningQueries "t") ∧
    ¬ (0 < (⟨"t", 0, 0, ([] : List LogEntry)⟩ : PostgresqlWriter).bufferSize) := by
  exact ⟨rfl, by decide⟩

/-- C4 amended claim: the defaults (table "logs", threshold 100, interval
5s) are supplied only when the configuration object as a whole is absent
(nil), in which case the constructed writer satisfies threshold > 0 and
interval > 0; a supplied configuration is copied verbatim into the writer,
so the invariant holds only as far as the supplied values do. -/
theorem defaults_only_when_config_nil (db : DBExecutor) (cfg : PostgresConfig)
    (w w2 : PostgresqlWriter) (tr tr2 : List String) :
    (NewPostgresqlWriter (some db) none = .ok (w, tr) →
      w.tableName = "logs" ∧ w.bufferSize = 100 ∧ w.flushInterval = 5 * 1000000000 ∧
      0 < w.bufferSize ∧ 0 < w.flushInterval) ∧
    (NewPostgresqlWriter (some db) (some cfg) = .ok (w2, tr2) →
      w2.tableName = cfg.tableName ∧ w2.bufferSize = cfg.bufferSize ∧
      w2.flushInterval = cfg.flushInterval) := by
  constructor
  · intro hok
    have hw := (newWriter_ok_elim db none w tr hok).1
    subst hw
    exact ⟨rfl, rfl, rfl, by decide, by decide⟩
  · intro hok
    have hw := (newWriter_ok_elim db (some cfg) w2 tr2 hok).1
    subst hw
    exact ⟨rfl, rfl, rfl⟩

/-- C4 amended witness: construction with a nil configuration produces the
default writer. -/
theorem defaults_only_when_config_nil_witness :
    (⟨"logs", 100, 5 * 1000000000, []⟩ : PostgresqlWriter).tableName = "logs" ∧
    (⟨"logs", 100, 5 * 1000000000, []⟩ : PostgresqlWriter).bufferSize = 100 := by
  have h := (defaults_only_when_config_nil ⟨true, fun _ => true⟩
    ⟨"t", 1, 1⟩ ⟨"logs", 100, 5 * 1000000000, []⟩ ⟨"t", 1, 1, []⟩
    (provisioningQueries "logs") []).1 rfl
  exact ⟨h.1, h.2.1⟩

/-- C8: construction eagerly checks the backend and provisions the schema,
and aborts without producing a writer on any failure: a nil executor, a
failed `Ping`, or a failed `ensureTable` each yield an error; on success the
statements actually issued are exactly the CREATE TABLE plus the five
CREATE INDEX statements, every one of them idempotent
("... IF NOT EXISTS ..."). -/
theorem construction_eager_checks_abort_on_failure (db : DBExecutor)
    (cfgo : Option PostgresConfig) :
    (NewPostgresqlWriter none cfgo = .error "db executor is required") ∧
    (db.pingOk = false →
      NewPostgresqlWriter (some db) cfgo = .error "failed to ping database") ∧
    (db.pingOk = true →
      (ensureTable db (cfgo.getD DefaultPostgresConfig).tableName).1 = false →
      NewPostgresqlWriter (some db) cfgo = .error "failed to ensure table") ∧
    (∀ w tr, NewPostgresqlWriter (some db) cfgo = .ok (w, tr) →
      db.pingOk = true ∧
      (ensureTable db (cfgo.getD DefaultPostgresConfig).tableName).1 = true ∧
      tr = provisioningQueries (cfgo.getD DefaultPostgresConfig).tableName ∧
      ∀ q ∈ tr, ("CREATE TABLE IF NOT EXISTS ".data <+: q.data) ∨
        ("CREATE INDEX IF NOT EXISTS idx_".data <+: q.data)) := by
  refine ⟨rfl, ?_, ?_, ?_⟩
  · intro hp
    simp [NewPostgresqlWriter, hp]
  · intro hp he
    simp [NewPostgresqlWriter, hp, he]
  · intro w tr hok
    obtain ⟨_, htr, hp, he⟩ := newWriter_ok_elim db cfgo w tr hok
    have htrace : tr = provisioningQueries (cfgo.getD DefaultPostgresConfig).tableName := by
      rw [htr]
      exact execAll_ok_trace db _ he
    refine ⟨hp, he, htrace, ?_⟩
    intro q hq
    exact provisioning_idempotent _ q (htrace ▸ hq)

/-- C8 witness: the failure modes and the success trace evaluated at
concrete executors. -/
theorem construction_eager_checks_witness :
    NewPostgresqlWriter (some ⟨false, fun _ => true⟩) none =
      .error "failed to ping database" ∧
    NewPostgresqlWriter (some ⟨true, fun _ => false⟩) none =
      .error "failed to ensure table" := by
  refine ⟨(construction_eager_checks_abort_on_failure ⟨false, fun _ => true⟩ none).2.1 rfl,
    (construction_eager_checks_abort_on_failure ⟨true, fun _ => false⟩ none).2.2.1 rfl rfl⟩
